import Mathlib

/-!
Verification development for the FTA-Lite RAG test harness.

Strings of the TypeScript source are modelled as `List Char`; JavaScript
numbers used as similarity scores are modelled as `ℚ`; machine text length
(`String.prototype.length`) is modelled as codepoint count, which agrees with
UTF-16 length on all inputs used here.
-/

/-! ### Chunker (src/lib/db/core/chunker.ts) -/

/-- Character class of the JavaScript regex `\s` and of `String.prototype.trim`
(the two sets coincide in JavaScript). -/
def isJsSpace (c : Char) : Bool :=
  c = ' ' || c = '\t' || c = '\n' || c = '\r' || c = '\x0b' || c = '\x0c' ||
  c = ' ' || c = ' ' ||
  (decide (' ' ≤ c) && decide (c ≤ ' ')) ||
  c = ' ' || c = ' ' || c = ' ' || c = ' ' ||
  c = '　' || c = '﻿'

/-- JavaScript `String.prototype.trim`: strip `isJsSpace` characters from both ends. -/
def trimChars (l : List Char) : List Char :=
  ((l.dropWhile isJsSpace).reverse.dropWhile isJsSpace).reverse

/-- Line-ending normalisation `content.replace(/\r\n/g, '\n')` (chunker.ts line 28):
left-to-right replacement of every (non-overlapping) CRLF pair by LF. -/
def normalizeChars : List Char → List Char
  | [] => []
  | '\r' :: '\n' :: rest => '\n' :: normalizeChars rest
  | c :: rest => c :: normalizeChars rest

/-- Conversion of LF line endings to CRLF: the "CRLF version" of a text. -/
def crlfOf : List Char → List Char
  | [] => []
  | c :: rest => if c = '\n' then '\r' :: '\n' :: crlfOf rest else c :: crlfOf rest

/-- Number of matches of the global regex `/(Q:|A:|问：|答：)/g` (chunker.ts line 33):
the regex engine tries the four two-character alternatives at each position,
skips two characters on a match and one character otherwise. -/
def qaCount : List Char → Nat
  | 'Q' :: ':' :: rest => qaCount rest + 1
  | 'A' :: ':' :: rest => qaCount rest + 1
  | '问' :: '：' :: rest => qaCount rest + 1
  | '答' :: '：' :: rest => qaCount rest + 1
  | _ :: rest => qaCount rest
  | [] => 0

/-- Maximal `\s`-prefix of a character list together with the remainder. -/
def takeWs : List Char → List Char × List Char
  | [] => ([], [])
  | c :: rest =>
    if isJsSpace c then
      let p := takeWs rest
      (c :: p.1, p.2)
    else ([], c :: rest)

/-- Length of the shortest prefix that ends at the LAST `'\n'` of the list,
`none` when the list holds no newline.  Used to model the greedy backtracking
of `\s*` inside the regex `\n\s*\n`. -/
def lastNlLen : List Char → Option Nat
  | [] => none
  | c :: rest =>
    match lastNlLen rest with
    | some n => some (n + 1)
    | none => if c = '\n' then some 1 else none

/-- Scanner implementing `String.prototype.split(/\n\s*\n/g)` (chunker.ts
lines 34, 43, 67).  A match starts at a `'\n'`, greedily extends through the
maximal whitespace run to the last `'\n'` inside it, and scanning resumes
after the match.  `fuel` only bounds the recursion; `splitBlank` supplies
`cs.length`, which is always sufficient since every step consumes at least
one character. -/
def splitGo : Nat → List Char → List Char → List (List Char)
  | 0, acc, _ => [acc.reverse]
  | _ + 1, acc, [] => [acc.reverse]
  | fuel + 1, acc, c :: rest =>
    if c = '\n' then
      match lastNlLen (takeWs rest).1 with
      | some n => acc.reverse :: splitGo fuel [] (rest.drop n)
      | none => splitGo fuel (c :: acc) rest
    else splitGo fuel (c :: acc) rest

/-- `normalizedContent.split(doubleNewlinePattern)`. -/
def splitBlank (cs : List Char) : List (List Char) :=
  splitGo cs.length [] cs

/-- `paragraphMatches` (chunker.ts line 37): number of matches of
`/\n\s*\n/g`, i.e. number of blank-line separators, which is one less than
the number of segments `split` produces. -/
def blankGapCount (cs : List Char) : Nat :=
  (splitBlank cs).length - 1

def QA_CHUNK_SIZE : Nat := 1500
def STRUCTURED_CHUNK_SIZE : Nat := 2000
def STRUCTURED_CHUNK_OVERLAP : Nat := 400
def DEFAULT_CHUNK_SIZE : Nat := 1200
def DEFAULT_CHUNK_OVERLAP : Nat := 200

/-- Strategy 1 (chunker.ts lines 40-61): split on blank lines, recursively
re-split oversized QA pairs with the external `RecursiveCharacterTextSplitter`
(modelled by the parameter `f : chunkSize → chunkOverlap → text → chunks`),
then discard chunks of trimmed length ≤ 10. -/
def qaStrategyChunks (f : Nat → Nat → List Char → List (List Char))
    (normalized : List Char) : List (List Char) :=
  let chunks := splitBlank normalized
  let finalChunks := chunks.flatMap (fun chunk =>
    let trimmedChunk := trimChars chunk
    if trimmedChunk = [] then []
    else if QA_CHUNK_SIZE < trimmedChunk.length then
      ((f QA_CHUNK_SIZE 100 trimmedChunk).map trimChars).filter (fun sc => !sc.isEmpty)
    else [trimmedChunk])
  finalChunks.filter (fun c => decide (10 < (trimChars c).length))

/-- Strategy 2 (chunker.ts lines 64-88): split on blank lines with the
2000/400 splitter for oversized paragraphs, then the same final filter. -/
def paragraphStrategyChunks (f : Nat → Nat → List Char → List (List Char))
    (normalized : List Char) : List (List Char) :=
  let chunks := splitBlank normalized
  let finalChunks := chunks.flatMap (fun chunk =>
    let trimmedChunk := trimChars chunk
    if trimmedChunk = [] then []
    else if STRUCTURED_CHUNK_SIZE < trimmedChunk.length then
      ((f STRUCTURED_CHUNK_SIZE STRUCTURED_CHUNK_OVERLAP trimmedChunk).map trimChars).filter
        (fun sc => !sc.isEmpty)
    else [trimmedChunk])
  finalChunks.filter (fun c => decide (10 < (trimChars c).length))

/-- Strategy 3 (chunker.ts lines 91-100): plain recursive splitting at
1200/200, trim each chunk and keep the non-empty ones longer than 10. -/
def defaultStrategyChunks (f : Nat → Nat → List Char → List (List Char))
    (normalized : List Char) : List (List Char) :=
  ((f DEFAULT_CHUNK_SIZE DEFAULT_CHUNK_OVERLAP normalized).map trimChars).filter
    (fun chunk => !chunk.isEmpty && decide (10 < chunk.length))

/-- Body of `universalChunker` after line-ending normalisation
(chunker.ts lines 30-100): first-match three-tier strategy selection. -/
def chunkNormalized (f : Nat → Nat → List Char → List (List Char))
    (normalized : List Char) : List (List Char) :=
  if 5 < qaCount normalized ∧ 5 < blankGapCount normalized then
    qaStrategyChunks f normalized
  else if 3 ≤ blankGapCount normalized then
    paragraphStrategyChunks f normalized
  else
    defaultStrategyChunks f normalized

/-- `universalChunker` (chunker.ts lines 25-101), parameterised by the external
`RecursiveCharacterTextSplitter.splitText` as `f chunkSize chunkOverlap text`. -/
def universalChunker (f : Nat → Nat → List Char → List (List Char))
    (content : List Char) : List (List Char) :=
  chunkNormalized f (normalizeChars content)

/-- The three chunking strategies. -/
inductive Strategy where
  | qa
  | paragraph
  | recursiveDefault
deriving DecidableEq, Repr

/-- Strategy selection as implemented (chunker.ts lines 40, 64): both tiers
test the COUNT OF BLANK-LINE SEPARATOR MATCHES (`paragraphMatches`). -/
def selectStrategy (normalized : List Char) : Strategy :=
  if 5 < qaCount normalized ∧ 5 < blankGapCount normalized then .qa
  else if 3 ≤ blankGapCount normalized then .paragraph
  else .recursiveDefault

/-- Number of blank-line-separated paragraphs: non-blank segments obtained by
splitting on blank lines. -/
def paragraphSegCount (normalized : List Char) : Nat :=
  ((splitBlank normalized).filter (fun seg => !(trimChars seg).isEmpty)).length

/-- Modelled from the claim's words (for comparison with `selectStrategy`):
strategy selection counting blank-line-separated PARAGRAPHS — QA when more
than 5 QA markers and more than 5 paragraphs, else paragraph split when at
least 3 paragraphs exist, else the recursive default. -/
def selectStrategyClaim (normalized : List Char) : Strategy :=
  if 5 < qaCount normalized ∧ 5 < paragraphSegCount normalized then .qa
  else if 3 ≤ paragraphSegCount normalized then .paragraph
  else .recursiveDefault

/-! ### Chunker lemmas -/

theorem dropWhile_dropWhile (p : Char → Bool) (l : List Char) :
    List.dropWhile p (List.dropWhile p l) = List.dropWhile p l := by
  induction l with
  | nil => rfl
  | cons c t ih =>
    cases hpc : p c with
    | true => simpa [List.dropWhile_cons, hpc] using ih
    | false => simp [List.dropWhile_cons, hpc]

theorem dropWhile_head_false (l : List Char) (d : Char) (t : List Char)
    (h : l.dropWhile isJsSpace = d :: t) : isJsSpace d = false := by
  induction l with
  | nil => simp [List.dropWhile] at h
  | cons c cs ih =>
    rw [List.dropWhile_cons] at h
    by_cases hc : isJsSpace c = true
    · rw [if_pos hc] at h; exact ih h
    · rw [if_neg hc] at h
      injection h with h1 _
      subst h1
      simpa using hc

theorem dropWhile_trimChars (x : List Char) :
    List.dropWhile isJsSpace (trimChars x) = trimChars x := by
  cases hbr : trimChars x with
  | nil => simp
  | cons d bs =>
    have hsplit := List.takeWhile_append_dropWhile isJsSpace (x.dropWhile isJsSpace).reverse
    have hrepr : x.dropWhile isJsSpace
        = trimChars x ++ ((x.dropWhile isJsSpace).reverse.takeWhile isJsSpace).reverse := by
      conv_lhs => rw [← List.reverse_reverse (x.dropWhile isJsSpace), ← hsplit]
      rw [List.reverse_append]
      rfl
    rw [hbr] at hrepr
    have hd : isJsSpace d = false :=
      dropWhile_head_false x d
        (bs ++ ((x.dropWhile isJsSpace).reverse.takeWhile isJsSpace).reverse) hrepr
    rw [List.dropWhile_cons, if_neg (by simp [hd])]

theorem trimChars_idem (l : List Char) : trimChars (trimChars l) = trimChars l := by
  conv_lhs => rw [trimChars, dropWhile_trimChars l]
  rw [trimChars, List.reverse_reverse, dropWhile_dropWhile]

theorem normalizeChars_cons_of_ne (c : Char) (t : List Char) (hc : c ≠ '\r') :
    normalizeChars (c :: t) = c :: normalizeChars t := by
  conv_lhs => unfold normalizeChars
  split
  · simp_all
  · simp_all
  · simp_all

theorem normalizeChars_crlf (t : List Char) :
    normalizeChars ('\r' :: '\n' :: t) = '\n' :: normalizeChars t := rfl

theorem normalizeChars_of_no_cr {s : List Char} (h : '\r' ∉ s) :
    normalizeChars s = s := by
  induction s with
  | nil => rfl
  | cons c t ih =>
    have hc : c ≠ '\r' := by rintro rfl; exact h (List.mem_cons_self _ _)
    have ht : '\r' ∉ t := fun hm => h (List.mem_cons_of_mem _ hm)
    rw [normalizeChars_cons_of_ne c t hc, ih ht]

theorem normalizeChars_crlfOf {s : List Char} (h : '\r' ∉ s) :
    normalizeChars (crlfOf s) = s := by
  induction s with
  | nil => rfl
  | cons c t ih =>
    have hc : c ≠ '\r' := by rintro rfl; exact h (List.mem_cons_self _ _)
    have ht : '\r' ∉ t := fun hm => h (List.mem_cons_of_mem _ hm)
    by_cases hcn : c = '\n'
    · subst hcn
      rw [show crlfOf ('\n' :: t) = '\r' :: '\n' :: crlfOf t from by simp [crlfOf],
        normalizeChars_crlf, ih ht]
    · rw [show crlfOf (c :: t) = c :: crlfOf t from by simp [crlfOf, hcn],
        normalizeChars_cons_of_ne c _ hc, ih ht]

/-! ### Claims C4, C5, C9 -/

/-- C4: for every input string, every chunk returned by the chunker has
trimmed length strictly greater than 10 characters, regardless of which of
the three strategies (QA split, paragraph split, recursive default)
produced it — and regardless of what the external recursive splitter `f`
returns. -/
theorem c4_chunk_min_length (f : Nat → Nat → List Char → List (List Char))
    (content c : List Char) (hc : c ∈ universalChunker f content) :
    10 < (trimChars c).length := by
  unfold universalChunker chunkNormalized at hc
  by_cases h1 : 5 < qaCount (normalizeChars content) ∧
      5 < blankGapCount (normalizeChars content)
  · rw [if_pos h1] at hc
    simp only [qaStrategyChunks] at hc
    exact of_decide_eq_true (List.mem_filter.mp hc).2
  · rw [if_neg h1] at hc
    by_cases h2 : 3 ≤ blankGapCount (normalizeChars content)
    · rw [if_pos h2] at hc
      simp only [paragraphStrategyChunks] at hc
      exact of_decide_eq_true (List.mem_filter.mp hc).2
    · rw [if_neg h2] at hc
      simp only [defaultStrategyChunks] at hc
      have hmem := (List.mem_filter.mp hc).1
      have hpred := (List.mem_filter.mp hc).2
      have hlen : 10 < c.length :=
        of_decide_eq_true ((Bool.and_eq_true _ _).mp hpred).2
      obtain ⟨x, _, hx⟩ := List.mem_map.mp hmem
      have hfix : trimChars c = c := by rw [← hx]; exact trimChars_idem x
      rw [hfix]
      exact hlen

/-- C4 witness: a 12-character single-line input passed through an identity
splitter is returned as one chunk of trimmed length 12 > 10. -/
theorem c4_chunk_min_length_witness :
    10 < (trimChars "abcdefghijkl".toList).length :=
  c4_chunk_min_length (fun _ _ s => [s]) "abcdefghijkl".toList
    "abcdefghijkl".toList (by decide)

/-- C9: the chunker normalises CRLF to LF before any strategy detection or
splitting, so on any text without bare carriage returns the CRLF version and
the LF version of the same content produce identical chunk lists. -/
theorem c9_crlf_invariance (f : Nat → Nat → List Char → List (List Char))
    (s : List Char) (h : '\r' ∉ s) :
    universalChunker f (crlfOf s) = universalChunker f s := by
  unfold universalChunker
  rw [normalizeChars_crlfOf h, normalizeChars_of_no_cr h]

/-- C9 witness: the CRLF and LF versions of a concrete two-line text chunk
identically. -/
theorem c9_crlf_invariance_witness :
    universalChunker (fun _ _ s => [s]) (crlfOf "hello world\nsecond line".toList)
      = universalChunker (fun _ _ s => [s]) "hello world\nsecond line".toList :=
  c9_crlf_invariance (fun _ _ s => [s]) "hello world\nsecond line".toList (by decide)

/-- C5 counterexample: a document consisting of six blank-line-separated QA
paragraphs (hence six QA markers and six paragraphs, but only five blank-line
separator matches).  The claim's selection rule (counting paragraphs) picks
the QA strategy, while the implementation (counting separator matches,
`paragraphMatches > 5` fails at 5) picks the paragraph strategy. -/
theorem c5_counterexample :
    qaCount (normalizeChars "Q:a\n\nA:b\n\nQ:c\n\nA:d\n\nQ:e\n\nA:f".toList) = 6
    ∧ paragraphSegCount (normalizeChars "Q:a\n\nA:b\n\nQ:c\n\nA:d\n\nQ:e\n\nA:f".toList) = 6
    ∧ blankGapCount (normalizeChars "Q:a\n\nA:b\n\nQ:c\n\nA:d\n\nQ:e\n\nA:f".toList) = 5
    ∧ selectStrategyClaim (normalizeChars "Q:a\n\nA:b\n\nQ:c\n\nA:d\n\nQ:e\n\nA:f".toList)
        = Strategy.qa
    ∧ selectStrategy (normalizeChars "Q:a\n\nA:b\n\nQ:c\n\nA:d\n\nQ:e\n\nA:f".toList)
        = Strategy.paragraph
    ∧ selectStrategy (normalizeChars "Q:a\n\nA:b\n\nQ:c\n\nA:d\n\nQ:e\n\nA:f".toList)
        ≠ selectStrategyClaim (normalizeChars "Q:a\n\nA:b\n\nQ:c\n\nA:d\n\nQ:e\n\nA:f".toList) := by
  decide

/-- C5 (amended): strategy selection is a first-match three-tier heuristic on
the number of QA-marker matches and the number of BLANK-LINE SEPARATOR
MATCHES (not paragraphs): QA fires exactly when both exceed 5; otherwise the
paragraph strategy fires exactly when at least 3 separator matches exist;
otherwise the recursive default (chunk size 1200, overlap 200) is used. -/
theorem c5_strategy_amended (f : Nat → Nat → List Char → List (List Char))
    (l : List Char) :
    (chunkNormalized f l =
      match selectStrategy l with
      | .qa => qaStrategyChunks f l
      | .paragraph => paragraphStrategyChunks f l
      | .recursiveDefault => defaultStrategyChunks f l)
    ∧ (selectStrategy l = .qa ↔ 5 < qaCount l ∧ 5 < blankGapCount l)
    ∧ (selectStrategy l = .paragraph ↔
        ¬(5 < qaCount l ∧ 5 < blankGapCount l) ∧ 3 ≤ blankGapCount l)
    ∧ (selectStrategy l = .recursiveDefault ↔
        ¬(5 < qaCount l ∧ 5 < blankGapCount l) ∧ ¬3 ≤ blankGapCount l)
    ∧ defaultStrategyChunks f l =
        ((f 1200 200 l).map trimChars).filter
          (fun chunk => !chunk.isEmpty && decide (10 < chunk.length)) := by
  unfold chunkNormalized selectStrategy
  by_cases h1 : 5 < qaCount l ∧ 5 < blankGapCount l
  · simp [h1, defaultStrategyChunks, DEFAULT_CHUNK_SIZE, DEFAULT_CHUNK_OVERLAP]
  · by_cases h2 : 3 ≤ blankGapCount l
    · simp [h1, h2, defaultStrategyChunks, DEFAULT_CHUNK_SIZE, DEFAULT_CHUNK_OVERLAP]
    · simp [h1, h2, defaultStrategyChunks, DEFAULT_CHUNK_SIZE, DEFAULT_CHUNK_OVERLAP]

/-! ### Similarity conversion (src/lib/db/chroma/index.ts, PostgresDB.queryDocuments) -/

/-- Chroma backend conversion (chroma/index.ts lines 124-125): the collection
returns a cosine distance (`?? 2` when absent), converted by `1 - distance`. -/
def chromaSimilarity (distance : Option ℚ) : ℚ :=
  1 - distance.getD 2

/-- Relational backend conversion: the SQL expression
`1 - (embedding <=> $1::vector) AS similarity` of `PostgresDB.queryDocuments`,
where `<=>` yields the cosine distance. -/
def pgSimilarity (d : ℚ) : ℚ :=
  1 - d

/-- C6: both the relational and the embedded vector-collection backends
convert cosine distance `d ∈ [0,2]` to similarity by the same formula `1 - d`;
distance 0 yields similarity 1 and distance 2 yields similarity -1, so the
scores are comparable across the two backends. -/
theorem c6_similarity_conversion (d : ℚ) :
    chromaSimilarity (some d) = 1 - d
    ∧ pgSimilarity d = 1 - d
    ∧ chromaSimilarity (some d) = pgSimilarity d
    ∧ chromaSimilarity (some 0) = 1
    ∧ chromaSimilarity (some 2) = -1
    ∧ pgSimilarity 0 = 1
    ∧ pgSimilarity 2 = -1
    ∧ (0 ≤ d → d ≤ 2 → -1 ≤ pgSimilarity d ∧ pgSimilarity d ≤ 1) := by
  refine ⟨rfl, rfl, rfl, by norm_num [chromaSimilarity],
    by norm_num [chromaSimilarity], by norm_num [pgSimilarity],
    by norm_num [pgSimilarity], fun h0 h2 => ⟨?_, ?_⟩⟩
  · unfold pgSimilarity; linarith
  · unfold pgSimilarity; linarith

/-- C6 witness: the conversion evaluated at distance 1/2. -/
theorem c6_similarity_conversion_witness :
    chromaSimilarity (some (1/2)) = pgSimilarity (1/2)
    ∧ -1 ≤ pgSimilarity ((1:ℚ)/2) ∧ pgSimilarity ((1:ℚ)/2) ≤ 1 :=
  ⟨(c6_similarity_conversion (1/2)).2.2.1,
    (c6_similarity_conversion (1/2)).2.2.2.2.2.2.2 (by norm_num) (by norm_num)⟩

/-! ### Vector-store factory (lib/db/index.ts, `getDbInstance`) -/

/-- A constructed backend instance; `id` is a creation counter modelling
JavaScript object identity. -/
structure DbInstance where
  id : Nat
  backendType : String
  embeddingModel : String
deriving DecidableEq, Repr

/-- The module-level factory state: the `dbInstancePool` map (as an
association list in insertion order), the creation counter, and the record of
`init()` calls (by instance id, in call order). -/
structure FactoryState where
  pool : List (String × DbInstance)
  nextId : Nat
  initCalls : List Nat
deriving DecidableEq, Repr

/-- Composite cache key (lib/db/index.ts line 31). -/
def cacheKey (dbType embeddingModel : String) : String :=
  dbType ++ "-" ++ embeddingModel

/-- Backend tags accepted by the `switch` (lib/db/index.ts lines 43-64). -/
def supportedBackends : List String :=
  ["POSTGRES", "CHROMA", "GOOGLE"]

/-- `Map.prototype.get`-style lookup in the pool. -/
def lookupPool (key : String) : List (String × DbInstance) → Option DbInstance
  | [] => none
  | (k, v) :: rest => if k = key then some v else lookupPool key rest

/-- `getDbInstance` (lib/db/index.ts lines 17-73) after the `||`-fallback to
environment variables has resolved the effective `(dbType, embeddingModel)`
pair (the empty string models an unset value): reject missing configuration,
return the cached instance when the key is present, otherwise construct the
backend for a supported tag, run `init()` once and cache the new instance. -/
def getDbInstance (dbType embeddingModel : String) (s : FactoryState) :
    Except String (DbInstance × FactoryState) :=
  if dbType = "" ∨ embeddingModel = "" then
    .error "Database type or embedding model is not configured."
  else
    match lookupPool (cacheKey dbType embeddingModel) s.pool with
    | some inst => .ok (inst, s)
    | none =>
      if dbType ∈ supportedBackends then
        let inst : DbInstance := ⟨s.nextId, dbType, embeddingModel⟩
        .ok (inst,
          { pool := s.pool ++ [(cacheKey dbType embeddingModel, inst)],
            nextId := s.nextId + 1,
            initCalls := s.initCalls ++ [s.nextId] })
      else
        .error ("Unsupported DATABASE_TYPE: " ++ dbType ++ ". Check your .env config.")

/-- Well-formedness of a factory state: distinct cache keys, distinct
instance identities, and every pooled identity below the creation counter.
These hold for the initial empty pool and are preserved by `getDbInstance`. -/
def WFState (s : FactoryState) : Prop :=
  (s.pool.map Prod.fst).Nodup
  ∧ (s.pool.map (fun p => p.2.id)).Nodup
  ∧ ∀ p ∈ s.pool, p.2.id < s.nextId

theorem cacheKey_right_inj {t m m' : String} (h : cacheKey t m = cacheKey t m') :
    m = m' := by
  unfold cacheKey at h
  have hd : (t ++ "-" ++ m).data = (t ++ "-" ++ m').data := by rw [h]
  simp only [String.data_append] at hd
  exact String.ext (List.append_cancel_left hd)

theorem lookupPool_mem {key : String} {v : DbInstance} :
    ∀ {pool : List (String × DbInstance)},
      lookupPool key pool = some v → (key, v) ∈ pool := by
  intro pool
  induction pool with
  | nil => intro h; simp [lookupPool] at h
  | cons p rest ih =>
    intro h
    rw [show lookupPool key (p :: rest)
        = if p.1 = key then some p.2 else lookupPool key rest from rfl] at h
    obtain ⟨a, b⟩ := p
    by_cases hp : a = key
    · rw [if_pos hp] at h
      injection h with h2
      subst hp
      subst h2
      exact List.mem_cons_self _ _
    · rw [if_neg hp] at h
      exact List.mem_cons_of_mem _ (ih h)

theorem lookupPool_none_not_mem {key : String} :
    ∀ {pool : List (String × DbInstance)},
      lookupPool key pool = none → ∀ p ∈ pool, p.1 ≠ key := by
  intro pool
  induction pool with
  | nil => intro _ p hp; simp at hp
  | cons q rest ih =>
    intro h p hp
    rw [show lookupPool key (q :: rest)
        = if q.1 = key then some q.2 else lookupPool key rest from rfl] at h
    by_cases hq : q.1 = key
    · rw [if_pos hq] at h; exact absurd h (by simp)
    · rw [if_neg hq] at h
      rcases List.mem_cons.mp hp with rfl | hp2
      · exact hq
      · exact ih h p hp2

theorem lookupPool_append_none {key : String}
    {xs ys : List (String × DbInstance)} (h : lookupPool key xs = none) :
    lookupPool key (xs ++ ys) = lookupPool key ys := by
  induction xs with
  | nil => rfl
  | cons q rest ih =>
    rw [show lookupPool key (q :: rest)
        = if q.1 = key then some q.2 else lookupPool key rest from rfl] at h
    by_cases hq : q.1 = key
    · rw [if_pos hq] at h; exact absurd h (by simp)
    · rw [if_neg hq] at h
      rw [List.cons_append,
        show lookupPool key ((q :: (rest ++ ys)))
          = if q.1 = key then some q.2 else lookupPool key (rest ++ ys) from rfl,
        if_neg hq]
      exact ih h

theorem lookupPool_append_some {key : String} {v : DbInstance}
    {xs ys : List (String × DbInstance)} (h : lookupPool key xs = some v) :
    lookupPool key (xs ++ ys) = some v := by
  induction xs with
  | nil => simp [lookupPool] at h
  | cons q rest ih =>
    rw [show lookupPool key (q :: rest)
        = if q.1 = key then some q.2 else lookupPool key rest from rfl] at h
    by_cases hq : q.1 = key
    · rw [if_pos hq] at h
      rw [List.cons_append,
        show lookupPool key ((q :: (rest ++ ys)))
          = if q.1 = key then some q.2 else lookupPool key (rest ++ ys) from rfl,
        if_pos hq]
      exact h
    · rw [if_neg hq] at h
      rw [List.cons_append,
        show lookupPool key ((q :: (rest ++ ys)))
          = if q.1 = key then some q.2 else lookupPool key (rest ++ ys) from rfl,
        if_neg hq]
      exact ih h

theorem wf_distinct_keys_distinct_ids {s : FactoryState} (hwf : WFState s)
    {k1 k2 : String} {v1 v2 : DbInstance}
    (h1 : (k1, v1) ∈ s.pool) (h2 : (k2, v2) ∈ s.pool) (hk : k1 ≠ k2) :
    v1.id ≠ v2.id := by
  intro hid
  have := List.inj_on_of_nodup_map hwf.2.1 h1 h2 hid
  exact hk (congrArg Prod.fst this)

/-- C7: the vector-store factory is an idempotent cache keyed by
`(backendType, embeddingModel)`: resolving the same key again returns the
identical instance and the identical state (so `init()` ran exactly once, on
first creation, recorded in `initCalls`); resolving the same backend type
with a different embedding model yields a distinct instance; key uniqueness
(at most one live instance per key) is preserved. -/
theorem c7_registry_cache (t m m' : String) (s : FactoryState)
    (i1 : DbInstance) (s1 : FactoryState) (i2 : DbInstance) (s2 : FactoryState)
    (hwf : WFState s) (h1 : getDbInstance t m s = .ok (i1, s1)) :
    getDbInstance t m s1 = .ok (i1, s1)
    ∧ WFState s1
    ∧ (lookupPool (cacheKey t m) s.pool = none →
        s1.initCalls = s.initCalls ++ [i1.id])
    ∧ (lookupPool (cacheKey t m) s.pool = some i1 → s1 = s)
    ∧ (getDbInstance t m' s1 = .ok (i2, s2) → m ≠ m' → i1.id ≠ i2.id) := by
  have hne : ¬(t = "" ∨ m = "") := by
    intro hcon
    rw [getDbInstance, if_pos hcon] at h1
    exact absurd h1 (by simp)
  rw [getDbInstance, if_neg hne] at h1
  cases hlk : lookupPool (cacheKey t m) s.pool with
  | some inst =>
    rw [hlk] at h1
    injection h1 with hpair
    rw [Prod.mk.injEq] at hpair
    obtain ⟨hi, hs⟩ := hpair
    subst hi
    subst hs
    refine ⟨?_, hwf, ?_, ?_, ?_⟩
    · rw [getDbInstance, if_neg hne, hlk]
    · intro hc; exact absurd hc (by simp)
    · intro _; rfl
    · intro h2 hm
      have hne' : ¬(t = "" ∨ m' = "") := by
        intro hcon
        rw [getDbInstance, if_pos hcon] at h2
        exact absurd h2 (by simp)
      rw [getDbInstance, if_neg hne'] at h2
      have hkne : cacheKey t m ≠ cacheKey t m' := fun hk => hm (cacheKey_right_inj hk)
      cases hlk2 : lookupPool (cacheKey t m') s.pool with
      | some inst2 =>
        rw [hlk2] at h2
        injection h2 with hpair2
        rw [Prod.mk.injEq] at hpair2
        obtain ⟨hi2, _⟩ := hpair2
        subst hi2
        exact wf_distinct_keys_distinct_ids hwf (lookupPool_mem hlk)
          (lookupPool_mem hlk2) hkne
      | none =>
        rw [hlk2] at h2
        by_cases hsup : t ∈ supportedBackends
        · rw [if_pos hsup] at h2
          injection h2 with hpair2
          rw [Prod.mk.injEq] at hpair2
          obtain ⟨hi2, _⟩ := hpair2
          subst hi2
          have hlt := hwf.2.2 _ (lookupPool_mem hlk)
          exact Nat.ne_of_lt hlt
        · rw [if_neg hsup] at h2
          exact absurd h2 (by simp)
  | none =>
    rw [hlk] at h1
    by_cases hsup : t ∈ supportedBackends
    · rw [if_pos hsup] at h1
      injection h1 with hpair
      rw [Prod.mk.injEq] at hpair
      obtain ⟨hi, hs⟩ := hpair
      subst hi
      subst hs
      have hkeys : ∀ p ∈ s.pool, p.1 ≠ cacheKey t m := lookupPool_none_not_mem hlk
      have hwf1 : WFState
          { pool := s.pool ++ [(cacheKey t m, ⟨s.nextId, t, m⟩)],
            nextId := s.nextId + 1,
            initCalls := s.initCalls ++ [s.nextId] } := by
        refine ⟨?_, ?_, ?_⟩
        · rw [List.map_append, List.nodup_append]
          refine ⟨hwf.1, by simp, ?_⟩
          intro k hk1 hk2
          simp only [List.map_cons, List.map_nil, List.mem_singleton] at hk2
          obtain ⟨p, hp, hpk⟩ := List.mem_map.mp hk1
          exact hkeys p hp (hpk.trans hk2)
        · rw [List.map_append, List.nodup_append]
          refine ⟨hwf.2.1, by simp, ?_⟩
          intro k hk1 hk2
          simp at hk2
          obtain ⟨p, hp, hpk⟩ := List.mem_map.mp hk1
          have hpid := hwf.2.2 p hp
          omega
        · intro p hp
          rcases List.mem_append.mp hp with hp1 | hp2
          · exact Nat.lt_succ_of_lt (hwf.2.2 p hp1)
          · simp only [List.mem_singleton] at hp2
            subst hp2
            exact Nat.lt_succ_self _
      refine ⟨?_, hwf1, ?_, ?_, ?_⟩
      · rw [getDbInstance, if_neg hne]
        have hres : lookupPool (cacheKey t m)
            (s.pool ++ [(cacheKey t m, (⟨s.nextId, t, m⟩ : DbInstance))])
            = some ⟨s.nextId, t, m⟩ := by
          rw [lookupPool_append_none hlk]
          simp [lookupPool]
        rw [hres]
      · intro _; rfl
      · intro hc; exact absurd hc (by simp)
      · intro h2 hm
        have hne' : ¬(t = "" ∨ m' = "") := by
          intro hcon
          rw [getDbInstance, if_pos hcon] at h2
          exact absurd h2 (by simp)
        rw [getDbInstance, if_neg hne'] at h2
        have hkne : cacheKey t m ≠ cacheKey t m' := fun hk => hm (cacheKey_right_inj hk)
        cases hlk2 : lookupPool (cacheKey t m') s.pool with
        | some v =>
          rw [show lookupPool (cacheKey t m')
              ({ pool := s.pool ++ [(cacheKey t m, ⟨s.nextId, t, m⟩)],
                 nextId := s.nextId + 1,
                 initCalls := s.initCalls ++ [s.nextId] } : FactoryState).pool
              = some v from lookupPool_append_some hlk2] at h2
          injection h2 with hpair2
          rw [Prod.mk.injEq] at hpair2
          obtain ⟨hi2, _⟩ := hpair2
          subst hi2
          have hlt := hwf.2.2 _ (lookupPool_mem hlk2)
          exact (Nat.ne_of_lt hlt).symm
        | none =>
          have hres2 : lookupPool (cacheKey t m')
              (s.pool ++ [(cacheKey t m, (⟨s.nextId, t, m⟩ : DbInstance))]) = none := by
            rw [lookupPool_append_none hlk2]
            simp [lookupPool, hkne]
          rw [show lookupPool (cacheKey t m')
              ({ pool := s.pool ++ [(cacheKey t m, ⟨s.nextId, t, m⟩)],
                 nextId := s.nextId + 1,
                 initCalls := s.initCalls ++ [s.nextId] } : FactoryState).pool
              = none from hres2] at h2
          by_cases hsup2 : t ∈ supportedBackends
          · rw [if_pos hsup2] at h2
            injection h2 with hpair2
            rw [Prod.mk.injEq] at hpair2
            obtain ⟨hi2, _⟩ := hpair2
            subst hi2
            simp
          · rw [if_neg hsup2] at h2
            exact absurd h2 (by simp)
    · rw [if_neg hsup] at h1
      exact absurd h1 (by simp)

/-- Initial (empty) factory state. -/
def factory0 : FactoryState := ⟨[], 0, []⟩

/-- State after resolving `("POSTGRES", "modelA")` once. -/
def factory1 : FactoryState :=
  ⟨[("POSTGRES-modelA", ⟨0, "POSTGRES", "modelA"⟩)], 1, [0]⟩

/-- State after additionally resolving `("POSTGRES", "modelB")`. -/
def factory2 : FactoryState :=
  ⟨[("POSTGRES-modelA", ⟨0, "POSTGRES", "modelA"⟩),
    ("POSTGRES-modelB", ⟨1, "POSTGRES", "modelB"⟩)], 2, [0, 1]⟩

/-- C7 witness: from the empty pool, resolving `("POSTGRES", "modelA")`,
re-resolving it, and resolving `("POSTGRES", "modelB")`. -/
theorem c7_registry_cache_witness :
    getDbInstance "POSTGRES" "modelA" factory1
      = .ok (⟨0, "POSTGRES", "modelA"⟩, factory1)
    ∧ WFState factory1
    ∧ (⟨0, "POSTGRES", "modelA"⟩ : DbInstance).id
        ≠ (⟨1, "POSTGRES", "modelB"⟩ : DbInstance).id := by
  have h := c7_registry_cache "POSTGRES" "modelA" "modelB" factory0
    ⟨0, "POSTGRES", "modelA"⟩ factory1 ⟨1, "POSTGRES", "modelB"⟩ factory2
    (by refine ⟨?_, ?_, ?_⟩ <;> simp [factory0]) (by rfl)
  exact ⟨h.1, h.2.1, h.2.2.2.2 (by rfl) (by decide)⟩

/-! ### Relational backend seeding (PostgresDB.seed) -/

/-- A `knowledge_files` row. -/
structure PgFileRow where
  id : Nat
  fileName : String
  content : String
deriving DecidableEq, Repr

/-- A `knowledge_chunks` row (the vector column is the embedding of the
chunk text, produced by the embedding provider `embed`). -/
structure PgChunkRow where
  fileId : Nat
  chunkText : List Char
  embedding : List ℚ
deriving DecidableEq, Repr

/-- The two knowledge tables plus the `SERIAL` sequence of `knowledge_files`. -/
structure PgState where
  files : List PgFileRow
  chunks : List PgChunkRow
  nextFileId : Nat
deriving DecidableEq, Repr

/-- `path.extname` restricted to a bare file name: the suffix starting at the
last `'.'`, empty when there is no dot or the only dot is the leading one. -/
def extname (name : List Char) : List Char :=
  let tailLen := (name.reverse.takeWhile (fun c => !(c = '.'))).length
  if tailLen = name.length then []
  else if name.length - tailLen - 1 = 0 then []
  else name.drop (name.length - tailLen - 1)

/-- Eligibility test of `PostgresDB.seed` (part_002 line 520):
only `.md` and `.txt` files are ingested. -/
def eligibleFile (name : String) : Bool :=
  extname name.toList = ".md".toList || extname name.toList = ".txt".toList

/-- The per-file ingestion loop of `seed` (part_002 lines 519-540): insert a
file row (taking the next serial id), chunk the content with
`universalChunker`, embed every chunk and insert a chunk row per chunk.
`splitText` is the external recursive splitter passed through to the chunker,
`embed` the embedding provider. -/
def seedFold (splitText : Nat → Nat → List Char → List (List Char))
    (embed : List Char → List ℚ) :
    List (String × String) → PgState → PgState
  | [], s => s
  | (fileName, content) :: rest, s =>
    if eligibleFile fileName then
      seedFold splitText embed rest
        { files := s.files ++ [⟨s.nextFileId, fileName, content⟩],
          chunks := s.chunks ++
            (universalChunker splitText content.toList).map
              (fun c => ⟨s.nextFileId, c, embed c⟩),
          nextFileId := s.nextFileId + 1 }
    else seedFold splitText embed rest s

/-- `PostgresDB.seed(directoryPath)` (part_002 lines 509-548): first
`TRUNCATE TABLE knowledge_files CASCADE` — deleting every file row and, via
the `ON DELETE CASCADE` foreign key, every chunk row, without restarting the
serial sequence — then ingest the directory's eligible files in order.  The
directory is modelled as the ordered list of its `(fileName, content)`
entries. -/
def pgSeed (splitText : Nat → Nat → List Char → List (List Char))
    (embed : List Char → List ℚ)
    (dir : List (String × String)) (s : PgState) : PgState :=
  seedFold splitText embed dir { files := [], chunks := [], nextFileId := s.nextFileId }

theorem seedFold_spec (splitText : Nat → Nat → List Char → List (List Char))
    (embed : List Char → List ℚ) :
    ∀ (dir : List (String × String)) (s : PgState),
      (seedFold splitText embed dir s).files.map (fun f => (f.fileName, f.content))
        = s.files.map (fun f => (f.fileName, f.content))
            ++ dir.filter (fun fc => eligibleFile fc.1)
      ∧ (seedFold splitText embed dir s).chunks.map (fun c => c.chunkText)
        = s.chunks.map (fun c => c.chunkText)
            ++ (dir.filter (fun fc => eligibleFile fc.1)).flatMap
                (fun fc => universalChunker splitText fc.2.toList) := by
  intro dir
  induction dir with
  | nil => intro s; simp [seedFold]
  | cons fc rest ih =>
    intro s
    obtain ⟨fileName, content⟩ := fc
    by_cases he : eligibleFile fileName
    · rw [show seedFold splitText embed ((fileName, content) :: rest) s
          = seedFold splitText embed rest
              { files := s.files ++ [⟨s.nextFileId, fileName, content⟩],
                chunks := s.chunks ++
                  (universalChunker splitText content.toList).map
                    (fun c => ⟨s.nextFileId, c, embed c⟩),
                nextFileId := s.nextFileId + 1 } from by
        simp [seedFold, he]]
      constructor
      · rw [(ih _).1]
        simp [he]
      · rw [(ih _).2]
        simp [he, List.map_map, Function.comp_def]
    · rw [show seedFold splitText embed ((fileName, content) :: rest) s
          = seedFold splitText embed rest s from by simp [seedFold, he]]
      constructor
      · rw [(ih _).1]
        simp [he]
      · rw [(ih _).2]
        simp [he]

/-- C10: seeding the relational backend is a destructive full replace: for
every prior state, `seed(directoryPath)` first truncates both knowledge
tables (cascade) and then ingests, so afterwards the file table holds exactly
the eligible (`.md`/`.txt`) files of the directory, the chunk table holds
exactly the chunks `universalChunker` derives from those files in order, and
the result is independent of whatever was stored before. -/
theorem c10_seed_full_replace (splitText : Nat → Nat → List Char → List (List Char))
    (embed : List Char → List ℚ) (dir : List (String × String)) (s t : PgState) :
    (pgSeed splitText embed dir s).files.map (fun f => (f.fileName, f.content))
      = dir.filter (fun fc => eligibleFile fc.1)
    ∧ (pgSeed splitText embed dir s).chunks.map (fun c => c.chunkText)
      = (dir.filter (fun fc => eligibleFile fc.1)).flatMap
          (fun fc => universalChunker splitText fc.2.toList)
    ∧ (pgSeed splitText embed dir s).files.map (fun f => (f.fileName, f.content))
      = (pgSeed splitText embed dir t).files.map (fun f => (f.fileName, f.content))
    ∧ (pgSeed splitText embed dir s).chunks.map (fun c => c.chunkText)
      = (pgSeed splitText embed dir t).chunks.map (fun c => c.chunkText) := by
  have hs := seedFold_spec splitText embed dir
    { files := [], chunks := [], nextFileId := s.nextFileId }
  have ht := seedFold_spec splitText embed dir
    { files := [], chunks := [], nextFileId := t.nextFileId }
  unfold pgSeed
  refine ⟨?_, ?_, ?_, ?_⟩
  · rw [hs.1]; simp
  · rw [hs.2]; simp
  · rw [hs.1, ht.1]
  · rw [hs.2, ht.2]

/-! ### Test-run orchestrator (src/app/api/run-task/route.ts) -/

/-- A retrieved document (`Document` of lib/db/core/interface). -/
structure Doc where
  id : String
  content : String
  metadata : String
  similarity : Option ℚ
deriving DecidableEq, Repr

/-- Input to the reranker: original index plus content. -/
structure RerankInput where
  index : Nat
  content : String
deriving DecidableEq, Repr

/-- Reranker output item: original index, content and relevance score. -/
structure RerankRes where
  index : Nat
  content : String
  score : ℚ
deriving DecidableEq, Repr

/-- A successful non-streaming model response (content, total tokens,
total duration in nanoseconds). -/
structure ModelOk where
  content : String
  tokens : Nat
  durationNs : Nat
deriving DecidableEq, Repr

/-- Result of `safeModelCall` (route.ts lines 11-26), extended with the
number of attempts performed and the list of awaited retry delays, which the
source realises as `setTimeout` calls (line 39). -/
structure SafeCallResult where
  success : Bool
  content : Option String
  tokens : Option Nat
  durationNs : Option Nat
  error : Option String
  attempts : Nat
  delaysMs : List Nat
deriving DecidableEq, Repr

/-- The fixed delay before each retry (route.ts line 39). -/
def retryDelayMs : Nat := 2000

/-- The retry loop of `safeModelCall` (route.ts lines 34-65): attempt `i`
first awaits the fixed delay when `i > 0`, then calls the model (modelled by
`oracle i`); on success it returns the response, on failure it retries while
`attemptsLeft > 0` and otherwise reports the last error. -/
def safeCallAux (oracle : Nat → Except String ModelOk)
    (attemptsLeft i : Nat) (delays : List Nat) : SafeCallResult :=
  let delays' := if 0 < i then delays ++ [retryDelayMs] else delays
  match oracle i, attemptsLeft with
  | .ok r, _ =>
      ⟨true, some r.content, some r.tokens, some r.durationNs, none, i + 1, delays'⟩
  | .error e, 0 =>
      ⟨false, none, none, none, some e, i + 1, delays'⟩
  | .error _, n + 1 => safeCallAux oracle n (i + 1) delays'

/-- `safeModelCall` with its default budget of 2 retries (route.ts line 32). -/
def safeModelCall (oracle : Nat → Except String ModelOk) : SafeCallResult :=
  safeCallAux oracle 2 0 []

/-- Rerank keeps the top 3 results (route.ts line 299). -/
def topN_rerank : Nat := 3

/-- Similarity threshold of the context filter (route.ts line 310): the
constant 0.8, written in normalised form so that comparisons evaluate. -/
def SIMILARITY_THRESHOLD : ℚ := mkRat 8 10

theorem SIMILARITY_THRESHOLD_eq : SIMILARITY_THRESHOLD = 8 / 10 := by
  norm_num [SIMILARITY_THRESHOLD, Rat.mkRat_eq_div]

/-- Stand-in for the out-of-range access `relevantChunks[result.index]`
(route.ts line 302); reranker results always carry in-range indices. -/
def defaultDoc : Doc := ⟨"", "", "", none⟩

/-- `finalChunks` (route.ts lines 300-307): top-3 reranked results joined
back to the retrieved chunks, with the rerank score as new similarity. -/
def finalChunksOf (relevantChunks : List Doc) (rr : List RerankRes) : List Doc :=
  (rr.take topN_rerank).map (fun r =>
    { relevantChunks.getD r.index defaultDoc with similarity := some r.score })

/-- The 0.8-threshold filter (route.ts line 311). -/
def thresholdFiltered (relevantChunks : List Doc) (rr : List RerankRes) : List Doc :=
  (finalChunksOf relevantChunks rr).filter
    (fun c => decide (SIMILARITY_THRESHOLD ≤ c.similarity.getD 0))

/-- `finalContextChunks` after the fallback (route.ts lines 315-321): when
the filtered set is empty but raw retrieval returned something, fall back to
the first 3 raw results (defaulting absent similarities to 0). -/
def finalContextOf (relevantChunks : List Doc) (rr : List RerankRes) : List Doc :=
  let fc := thresholdFiltered relevantChunks rr
  if fc = [] ∧ relevantChunks ≠ [] then
    (relevantChunks.take 3).map (fun c => { c with similarity := some (c.similarity.getD 0) })
  else fc

/-- Outcome of the RAG block: final context chunks and the prompt sent to the
work model. -/
structure RagOutcome where
  contextChunks : List Doc
  prompt : String
deriving DecidableEq, Repr

/-- The augmented prompt (route.ts lines 326-335); the template literal's
indentation whitespace is normalised here. -/
def mkAugmentedPrompt (contextChunks : List Doc) (question : String) : String :=
  "---\n【知识库知识】\n"
    ++ String.intercalate "\n" (contextChunks.map (fun c => "- " ++ c.content))
    ++ "\n---\n\n【用户问题】\n" ++ question

/-- The RAG retrieve-rerank-filter-fallback block (route.ts lines 250-346):
`dbRes` models `db.queryDocuments` (error = thrown), `rerankOf` models
`rerankDocuments` (error = thrown); any throw is caught and degrades to the
raw question, an empty final context also degrades to the raw question. -/
def ragStep (question : String) (dbRes : Except String (List Doc))
    (rerankOf : List RerankInput → Except String (List RerankRes)) : RagOutcome :=
  match dbRes with
  | .error _ => ⟨[], question⟩
  | .ok relevantChunks =>
    match rerankOf (relevantChunks.enum.map (fun p => ⟨p.1, p.2.content⟩)) with
    | .error _ => ⟨[], question⟩
    | .ok rerankedResults =>
      let finalContextChunks := finalContextOf relevantChunks rerankedResults
      if finalContextChunks ≠ [] then
        ⟨finalContextChunks, mkAugmentedPrompt finalContextChunks question⟩
      else ⟨finalContextChunks, question⟩

/-- A test case of the question set. -/
structure TestCase where
  id : Nat
  tag : String
  source : String
  question : String
  answer : String
  score : Nat
deriving DecidableEq, Repr

/-- A persisted result entry (route.ts lines 475-494).  The pure-telemetry
fields (durations, backend/model names) are omitted; `error` is
`workResult.error` exactly as in the source. -/
structure ResultEntry where
  id : Nat
  tag : String
  source : String
  question : String
  standardAnswer : String
  modelAnswer : String
  maxScore : Nat
  score : Nat
  workTokenUsage : Nat
  scoreTokenUsage : Nat
  error : Option String
deriving DecidableEq, Repr

/-- The placeholder answer (route.ts line 215). -/
def PLACEHOLDER_ANSWER : String := "N/A (调用失败)"

/-- The scoring prompt (route.ts lines 417-429); template indentation
normalised. -/
def mkScoreMessage (tc : TestCase) (modelAnswer : String) : String :=
  "---\n**问题:**\n" ++ tc.question
    ++ "\n\n---\n**标准答案 (参考事实来源):**\n" ++ tc.answer
    ++ "\n\n---\n**模型的回答 (待评估对象):**\n" ++ modelAnswer

/-- `parseInt(content.trim().match(/\d+/)?.[0] || '0', 10)`
(route.ts line 468): the first run of ASCII digits anywhere in the trimmed
content, 0 when there is none. -/
def parseScore (content : String) : Nat :=
  let cs := trimChars content.toList
  let ds := (cs.dropWhile (fun c => !c.isDigit)).takeWhile (fun c => c.isDigit)
  ds.foldl (fun n c => n * 10 + (c.toNat - '0'.toNat)) 0

/-- Per-case environment: the external collaborators of one test case.
`workOracle`/`scoreOracle` take the prompt and the attempt number. -/
structure CaseEnv where
  dbRes : Except String (List Doc)
  rerankOf : List RerankInput → Except String (List RerankRes)
  workOracle : String → Nat → Except String ModelOk
  scoreOracle : String → Nat → Except String ModelOk

/-- Processing of one test case (route.ts lines 212-495): RAG block, work
model call through `safeModelCall`, scoring only when the work call
succeeded, then the result entry.  `error` is set from the work result only
(line 493). -/
def processCase (env : CaseEnv) (tc : TestCase) : ResultEntry :=
  let rag := ragStep tc.question env.dbRes env.rerankOf
  let workResult := safeModelCall (env.workOracle rag.prompt)
  let modelAnswer :=
    if workResult.success then workResult.content.getD "" else PLACEHOLDER_ANSWER
  let scoreResult :=
    if workResult.success then
      some (safeModelCall (env.scoreOracle (mkScoreMessage tc modelAnswer)))
    else none
  { id := tc.id, tag := tc.tag, source := tc.source, question := tc.question,
    standardAnswer := tc.answer, modelAnswer := modelAnswer, maxScore := tc.score,
    score :=
      match scoreResult with
      | some s => if s.success then parseScore (s.content.getD "") else 0
      | none => 0,
    workTokenUsage := workResult.tokens.getD 0,
    scoreTokenUsage :=
      match scoreResult with
      | some s => s.tokens.getD 0
      | none => 0,
    error := workResult.error }

/-- Observable trace of one loop of `runTask`: the completed result entries
in order, the successive contents written to `results.json` (full overwrite
after every case, route.ts line 496), and whether cancellation was
detected. -/
structure RunTrace where
  entries : List ResultEntry
  fileStates : List (List ResultEntry)
  cancelled : Bool
deriving DecidableEq, Repr

/-- The per-loop test-case loop (route.ts lines 212-498) with the cooperative
cancellation flag polled at case granularity: `flag i` is the value the
aborted-flag holds while case `i` runs (the source polls it at each progress
event and before each model call; a signal raised between two cases is seen
by the first poll of the next case, before any of its effects). -/
def runCasesGo (env : Nat → CaseEnv) (flag : Nat → Bool) :
    Nat → List ResultEntry → List TestCase → RunTrace
  | _, acc, [] => ⟨acc, [], false⟩
  | i, acc, tc :: rest =>
    if flag i then ⟨acc, [], true⟩
    else
      let t := runCasesGo env flag (i + 1) (acc ++ [processCase (env i) tc]) rest
      ⟨t.entries, (acc ++ [processCase (env i) tc]) :: t.fileStates, t.cancelled⟩

/-- One loop of `runTask` over the configured test cases. -/
def runTestCases (env : Nat → CaseEnv) (flag : Nat → Bool)
    (tcs : List TestCase) : RunTrace :=
  runCasesGo env flag 0 [] tcs

/-- Entries of the cases completed before cancellation is detected. -/
def completedEntries (env : Nat → CaseEnv) (flag : Nat → Bool) :
    Nat → List TestCase → List ResultEntry
  | _, [] => []
  | i, tc :: rest =>
    if flag i then []
    else processCase (env i) tc :: completedEntries env flag (i + 1) rest

/-- Whether the loop stopped because the cancellation flag was seen. -/
def wasCancelled (flag : Nat → Bool) : Nat → List TestCase → Bool
  | _, [] => false
  | i, _ :: rest => if flag i then true else wasCancelled flag (i + 1) rest

/-- The event kinds of the run progress stream (route.ts / §6 of the
stream contract); payloads not inspected by any claim are elided. -/
inductive Event where
  | log (message : String)
  | update
  | stateUpdate
  | tokenUsage (total : Nat)
  | error (message : String)
  | done (message : String)
deriving DecidableEq, Repr

/-- The message of the error thrown on cancellation detection
(route.ts lines 128, 197, 358, 452). -/
def CANCEL_THROWN : String := "任务已被用户取消"

/-- The message of the terminal event sent when that error is caught
(route.ts line 142). -/
def CANCEL_EVENT_MESSAGE : String := "任务已被用户取消。"

/-- The terminal `done` message (route.ts line 137). -/
def DONE_MESSAGE : String := "所有任务已成功完成。"

/-- The terminal event of the POST stream (route.ts lines 136-146): `done`
when `runTask` returned, otherwise an `error`-kind event whose message is the
dedicated cancellation text when the thrown error was the cancellation
error. -/
def terminalEventOfOutcome : Option String → Event
  | none => .done DONE_MESSAGE
  | some msg => if msg = CANCEL_THROWN then .error CANCEL_EVENT_MESSAGE else .error msg

/-- Terminal event of a run trace (cancellation throws `CANCEL_THROWN`). -/
def terminalEvent (t : RunTrace) : Event :=
  terminalEventOfOutcome (if t.cancelled then some CANCEL_THROWN else none)

/-- Whether an event is of the `error` kind. -/
def isErrorEvent : Event → Bool
  | .error _ => true
  | _ => false

/-! ### Orchestrator lemmas -/

theorem runCasesGo_eq (env : Nat → CaseEnv) (flag : Nat → Bool) :
    ∀ (tcs : List TestCase) (i : Nat) (acc : List ResultEntry),
      runCasesGo env flag i acc tcs =
        ⟨acc ++ completedEntries env flag i tcs,
         (List.range (completedEntries env flag i tcs).length).map
           (fun k => acc ++ (completedEntries env flag i tcs).take (k + 1)),
         wasCancelled flag i tcs⟩ := by
  intro tcs
  induction tcs with
  | nil => intro i acc; simp [runCasesGo, completedEntries, wasCancelled]
  | cons tc rest ih =>
    intro i acc
    cases hf : flag i with
    | true => simp [runCasesGo, completedEntries, wasCancelled, hf]
    | false =>
      simp only [runCasesGo, completedEntries, wasCancelled, hf, if_false,
        Bool.false_eq_true]
      rw [ih]
      refine congrArg₂ (RunTrace.mk · · _) ?_ ?_
      · simp
      · rw [List.length_cons, List.range_succ_eq_map, List.map_cons, List.map_map]
        refine congrArg₂ List.cons ?_ ?_
        · simp
        · refine List.map_congr_left ?_
          intro k _
          simp [List.take_succ_cons, Function.comp]

theorem runTestCases_eq (env : Nat → CaseEnv) (flag : Nat → Bool)
    (tcs : List TestCase) :
    runTestCases env flag tcs =
      ⟨completedEntries env flag 0 tcs,
       (List.range (completedEntries env flag 0 tcs).length).map
         (fun k => (completedEntries env flag 0 tcs).take (k + 1)),
       wasCancelled flag 0 tcs⟩ := by
  have h := runCasesGo_eq env flag tcs 0 []
  simpa [runTestCases] using h

theorem completedEntries_false_length (env : Nat → CaseEnv) :
    ∀ (tcs : List TestCase) (i : Nat),
      (completedEntries env (fun _ => false) i tcs).length = tcs.length := by
  intro tcs
  induction tcs with
  | nil => intro i; rfl
  | cons tc rest ih => intro i; simp [completedEntries, ih]

theorem completedEntries_threshold (env : Nat → CaseEnv) (k : Nat) :
    ∀ (tcs : List TestCase) (i : Nat),
      completedEntries env (fun j => decide (k ≤ j)) i tcs
        = completedEntries env (fun _ => false) i (tcs.take (k - i)) := by
  intro tcs
  induction tcs with
  | nil => intro i; simp [completedEntries]
  | cons tc rest ih =>
    intro i
    by_cases h : k ≤ i
    · have hz : k - i = 0 := Nat.sub_eq_zero_of_le h
      simp [completedEntries, h, hz]
    · have hlt : i < k := Nat.not_le.mp h
      have hsub : k - i = (k - (i + 1)) + 1 := by omega
      rw [hsub, List.take_succ_cons]
      simp [completedEntries, h, ih]

theorem wasCancelled_threshold (k : Nat) :
    ∀ (tcs : List TestCase) (i : Nat), i ≤ k → k - i < tcs.length →
      wasCancelled (fun j => decide (k ≤ j)) i tcs = true := by
  intro tcs
  induction tcs with
  | nil => intro i _ hlen; simp at hlen
  | cons tc rest ih =>
    intro i hik hlen
    by_cases h : k ≤ i
    · simp [wasCancelled, h]
    · have hlt : i < k := Nat.not_le.mp h
      have : wasCancelled (fun j => decide (k ≤ j)) (i + 1) rest = true := by
        refine ih (i + 1) hlt ?_
        simp only [List.length_cons] at hlen
        omega
      simp [wasCancelled, h, this]

theorem prefixes_getLast (C : List ResultEntry) :
    ((List.range C.length).map (fun k => C.take (k + 1))).getLast?.getD [] = C := by
  cases hC : C.length with
  | zero =>
    have : C = [] := List.length_eq_zero.mp hC
    subst this
    rfl
  | succ n =>
    rw [List.range_succ, List.map_append]
    simp only [List.map_cons, List.map_nil]
    rw [List.getLast?_append_cons]
    simp only [List.getLast?_singleton, Option.getD_some]
    rw [show n + 1 = C.length from hC.symm, List.take_length]

theorem delays_step (i : Nat) :
    (if 0 < i then List.replicate (i - 1) retryDelayMs ++ [retryDelayMs]
     else List.replicate (i - 1) retryDelayMs) = List.replicate i retryDelayMs := by
  cases i with
  | zero => simp
  | succ j => simp [List.replicate_succ']

theorem safeCallAux_spec (oracle : Nat → Except String ModelOk) :
    ∀ (n i : Nat),
      (safeCallAux oracle n i (List.replicate (i - 1) retryDelayMs)).attempts ≤ i + n + 1
      ∧ (safeCallAux oracle n i (List.replicate (i - 1) retryDelayMs)).delaysMs
          = List.replicate
              ((safeCallAux oracle n i (List.replicate (i - 1) retryDelayMs)).attempts - 1)
              retryDelayMs := by
  intro n
  induction n with
  | zero =>
    intro i
    unfold safeCallAux
    rw [delays_step i]
    cases horacle : oracle i with
    | ok r => simp [horacle]
    | error e => simp [horacle]
  | succ n ih =>
    intro i
    unfold safeCallAux
    rw [delays_step i]
    cases horacle : oracle i with
    | ok r => simp [horacle]
    | error e =>
      have h := ih (i + 1)
      simp only [Nat.add_sub_cancel] at h
      refine ⟨?_, ?_⟩
      · exact le_trans h.1 (Nat.le_of_eq (by omega))
      · exact h.2

/-! ### Claims C8, C2, C3, C1 -/

/-- C8: after each test case completes, the loop's `results.json` is
rewritten as a full overwrite of the accumulated array: the successive
persisted file states are exactly the prefixes of the completed entries, in
processing order — so at every point the file holds exactly the entries of
the cases completed so far and an abrupt termination loses at most the
in-flight case.  Holds for every environment, cancellation flag and case
list. -/
theorem c8_incremental_persistence (env : Nat → CaseEnv) (flag : Nat → Bool)
    (tcs : List TestCase) :
    (runTestCases env flag tcs).fileStates
      = (List.range (runTestCases env flag tcs).entries.length).map
          (fun k => (runTestCases env flag tcs).entries.take (k + 1))
    ∧ (runTestCases env flag tcs).fileStates.length
      = (runTestCases env flag tcs).entries.length := by
  rw [runTestCases_eq]
  simp

/-- C2: for every test case, a throwing vector-store query degrades to the
raw unaugmented question as prompt (and an empty context); the run never
aborts — every case of an uncancelled run yields exactly one result entry,
whatever the collaborators do; and when reranking plus the 0.8 threshold
filter leaves an empty final context while raw retrieval was non-empty, the
context falls back to the first 3 raw retrieval results. -/
theorem c2_retrieval_degradation (q e : String)
    (rerankOf : List RerankInput → Except String (List RerankRes))
    (chunks : List Doc) (rr : List RerankRes)
    (env : Nat → CaseEnv) (tcs : List TestCase) :
    (ragStep q (.error e) rerankOf).prompt = q
    ∧ (ragStep q (.error e) rerankOf).contextChunks = []
    ∧ (runTestCases env (fun _ => false) tcs).entries.length = tcs.length
    ∧ (chunks ≠ [] → thresholdFiltered chunks rr = [] →
        finalContextOf chunks rr
          = (chunks.take 3).map
              (fun c => { c with similarity := some (c.similarity.getD 0) })) := by
  refine ⟨rfl, rfl, ?_, ?_⟩
  · rw [runTestCases_eq]
    exact completedEntries_false_length env tcs 0
  · intro h1 h2
    unfold finalContextOf
    rw [h2]
    rw [if_pos ⟨rfl, h1⟩]

/-- C3 (amended): every work-model and scoring-model call goes through
`safeModelCall` with a budget of 2 retries (at most 3 attempts) and the
fixed 2-second delay before each retry; a call failing twice and succeeding
on the 3rd attempt is a success; a call failing on all 3 attempts reports
the last error; a WORK-model call failing all attempts yields an entry with
`error` set and the placeholder `modelAnswer` (scoring skipped), while a
SCORING call failing all attempts yields an entry with score 0, no `error`
and the successful answer retained; either way the run continues — every
case of an uncancelled run yields exactly one entry. -/
theorem c3_retry_amended (oracle : Nat → Except String ModelOk)
    (e0 e1 e2 : String) (r : ModelOk) (ce : CaseEnv) (tc : TestCase)
    (env : Nat → CaseEnv) (tcs : List TestCase) :
    ((safeModelCall oracle).attempts ≤ 3
      ∧ (safeModelCall oracle).delaysMs
          = List.replicate ((safeModelCall oracle).attempts - 1) retryDelayMs
      ∧ retryDelayMs = 2000)
    ∧ (oracle 0 = .error e0 → oracle 1 = .error e1 → oracle 2 = .ok r →
        safeModelCall oracle
          = ⟨true, some r.content, some r.tokens, some r.durationNs, none, 3,
              [retryDelayMs, retryDelayMs]⟩)
    ∧ (oracle 0 = .error e0 → oracle 1 = .error e1 → oracle 2 = .error e2 →
        safeModelCall oracle
          = ⟨false, none, none, none, some e2, 3, [retryDelayMs, retryDelayMs]⟩)
    ∧ ((∀ i, ce.workOracle (ragStep tc.question ce.dbRes ce.rerankOf).prompt i
          = .error e0) →
        (processCase ce tc).error = some e0
          ∧ (processCase ce tc).modelAnswer = PLACEHOLDER_ANSWER)
    ∧ ((∀ i, ce.workOracle (ragStep tc.question ce.dbRes ce.rerankOf).prompt i
          = .ok r) →
        (∀ p i, ce.scoreOracle p i = .error e2) →
        (processCase ce tc).error = none
          ∧ (processCase ce tc).modelAnswer = r.content
          ∧ (processCase ce tc).score = 0)
    ∧ (runTestCases env (fun _ => false) tcs).entries.length = tcs.length := by
  refine ⟨⟨?_, ?_, rfl⟩, ?_, ?_, ?_, ?_, ?_⟩
  · exact (safeCallAux_spec oracle 2 0).1
  · exact (safeCallAux_spec oracle 2 0).2
  · intro h0 h1 h2
    simp [safeModelCall, safeCallAux, h0, h1, h2]
  · intro h0 h1 h2
    simp [safeModelCall, safeCallAux, h0, h1, h2]
  · intro hwork
    simp [processCase, safeModelCall, safeCallAux, hwork 0, hwork 1, hwork 2]
  · intro hwork hscore
    simp [processCase, safeModelCall, safeCallAux, hwork 0, hscore]
  · rw [runTestCases_eq]
    exact completedEntries_false_length env tcs 0

/-- C1 (amended): when the cooperative cancellation signal becomes visible
between case `k` and case `k+1` (flag false for the first `k` cases, true
from case `k+1` on), the run persists exactly the `k` completed entries —
identical to an uncancelled run over the first `k` cases — the final
persisted file equals those entries, and the stream terminates with the
`error`-kind event carrying the dedicated cancellation message, i.e.
cancellation is distinguished from other failures by the message only, not
by a separate event kind. -/
theorem c1_cancellation_amended (env : Nat → CaseEnv) (tcs : List TestCase)
    (k : Nat) (hk : k < tcs.length) :
    (runTestCases env (fun j => decide (k ≤ j)) tcs).cancelled = true
    ∧ (runTestCases env (fun j => decide (k ≤ j)) tcs).entries
        = (runTestCases env (fun _ => false) (tcs.take k)).entries
    ∧ (runTestCases env (fun j => decide (k ≤ j)) tcs).entries.length = k
    ∧ (runTestCases env (fun j => decide (k ≤ j)) tcs).fileStates.getLast?.getD []
        = (runTestCases env (fun j => decide (k ≤ j)) tcs).entries
    ∧ terminalEvent (runTestCases env (fun j => decide (k ≤ j)) tcs)
        = Event.error CANCEL_EVENT_MESSAGE := by
  have hcanc : wasCancelled (fun j => decide (k ≤ j)) 0 tcs = true := by
    refine wasCancelled_threshold k tcs 0 (Nat.zero_le k) ?_
    simpa using hk
  have hentries : completedEntries env (fun j => decide (k ≤ j)) 0 tcs
      = completedEntries env (fun _ => false) 0 (tcs.take k) := by
    have h := completedEntries_threshold env k tcs 0
    simpa using h
  have hlen : (completedEntries env (fun _ => false) 0 (tcs.take k)).length = k := by
    rw [completedEntries_false_length env (tcs.take k) 0, List.length_take]
    exact Nat.min_eq_left (Nat.le_of_lt hk)
  refine ⟨?_, ?_, ?_, ?_, ?_⟩
  · rw [runTestCases_eq]
    exact hcanc
  · rw [runTestCases_eq, runTestCases_eq]
    exact hentries
  · rw [runTestCases_eq]
    rw [show (⟨completedEntries env (fun j => decide (k ≤ j)) 0 tcs, _, _⟩ : RunTrace).entries
        = completedEntries env (fun j => decide (k ≤ j)) 0 tcs from rfl]
    rw [hentries]
    exact hlen
  · rw [runTestCases_eq]
    exact prefixes_getLast _
  · rw [runTestCases_eq]
    simp [terminalEvent, terminalEventOfOutcome, hcanc]

/-! ### Concrete run scenarios -/

/-- A simple test case with the given id. -/
def exCase (n : Nat) : TestCase := ⟨n, "tag", "src", "q", "a", 10⟩

/-- A 5-case question set. -/
def exCases5 : List TestCase :=
  [exCase 1, exCase 2, exCase 3, exCase 4, exCase 5]

/-- Environment whose vector store and reranker are down and whose models
answer on the first attempt. -/
def exEnv : Nat → CaseEnv := fun _ =>
  { dbRes := .error "vector store down",
    rerankOf := fun _ => .error "rerank down",
    workOracle := fun _ _ => .ok ⟨"answer text", 7, 1000000⟩,
    scoreOracle := fun _ _ => .ok ⟨"5", 3, 1000000⟩ }

/-- Environment whose work model succeeds immediately but whose scoring
model fails on every attempt. -/
def exScoreFailEnv : CaseEnv :=
  { dbRes := .error "vector store down",
    rerankOf := fun _ => .error "rerank down",
    workOracle := fun _ _ => .ok ⟨"the work answer", 7, 1000000⟩,
    scoreOracle := fun _ _ => .error "score model down" }

/-- Environment whose work model fails on every attempt. -/
def exWorkFailEnv : CaseEnv :=
  { dbRes := .error "vector store down",
    rerankOf := fun _ => .error "rerank down",
    workOracle := fun _ _ => .error "transient",
    scoreOracle := fun _ _ => .ok ⟨"5", 3, 1000000⟩ }

/-- An oracle failing twice and succeeding on the 3rd attempt. -/
def exFlaky : Nat → Except String ModelOk := fun i =>
  if 2 ≤ i then .ok ⟨"the work answer", 7, 1000000⟩ else .error "transient"

/-- C1 counterexample: in the claim's own scenario — cancellation signalled
between case 2 and case 3 of a 5-case run — the persisted file indeed holds
exactly 2 entries, but the stream terminates with an event of the `error`
kind (there is no separate cancellation event kind), refuting "a distinct
cancellation event, not an error event". -/
theorem c1_counterexample :
    (runTestCases exEnv (fun j => decide (2 ≤ j)) exCases5).cancelled = true
    ∧ ((runTestCases exEnv (fun j => decide (2 ≤ j)) exCases5).fileStates.getLast?.getD
        []).length = 2
    ∧ isErrorEvent
        (terminalEvent (runTestCases exEnv (fun j => decide (2 ≤ j)) exCases5))
        = true := by
  decide

/-- C1 witness: the amended statement instantiated at that 5-case run with
the signal between case 2 and case 3. -/
theorem c1_cancellation_amended_witness :
    (runTestCases exEnv (fun j => decide (2 ≤ j)) exCases5).entries.length = 2
    ∧ terminalEvent (runTestCases exEnv (fun j => decide (2 ≤ j)) exCases5)
        = Event.error CANCEL_EVENT_MESSAGE := by
  have h := c1_cancellation_amended exEnv exCases5 2 (by decide)
  exact ⟨h.2.2.1, h.2.2.2.2⟩

/-- Raw retrieval results whose reranked similarity all falls below 0.8. -/
def exFallbackChunks : List Doc :=
  [⟨"1", "doc one", "", some (mkRat 9 10)⟩, ⟨"2", "doc two", "", none⟩]

/-- Reranker output scoring the only candidate at 1/2 < 0.8. -/
def exFallbackRerank : List RerankRes := [⟨0, "doc one", mkRat 1 2⟩]

/-- C2 witness: a throwing vector store leaves the raw question as prompt; an
uncancelled 5-case run with failing retrieval still yields 5 entries; and an
all-below-threshold rerank falls back to the first 3 raw results. -/
theorem c2_retrieval_degradation_witness :
    (ragStep "why" (.error "down") (fun _ => .error "x")).prompt = "why"
    ∧ (runTestCases exEnv (fun _ => false) exCases5).entries.length = exCases5.length
    ∧ finalContextOf exFallbackChunks exFallbackRerank
        = (exFallbackChunks.take 3).map
            (fun c => { c with similarity := some (c.similarity.getD 0) }) := by
  have h := c2_retrieval_degradation "why" "down" (fun _ => .error "x")
    exFallbackChunks exFallbackRerank exEnv exCases5
  exact ⟨h.1, h.2.2.1, h.2.2.2 (by decide) (by decide)⟩

/-- C3 counterexample: a scoring-model call failing on all 3 attempts does
NOT yield an entry with `error` set and the placeholder answer — the entry
keeps the successful work answer, its `error` field is unset and only the
score is 0, refuting the claim's description for scoring calls. -/
theorem c3_counterexample :
    (safeModelCall (exScoreFailEnv.scoreOracle "x")).success = false
    ∧ (safeModelCall (exScoreFailEnv.scoreOracle "x")).attempts = 3
    ∧ (processCase exScoreFailEnv (exCase 1)).error = none
    ∧ (processCase exScoreFailEnv (exCase 1)).modelAnswer = "the work answer"
    ∧ (processCase exScoreFailEnv (exCase 1)).modelAnswer ≠ PLACEHOLDER_ANSWER
    ∧ (processCase exScoreFailEnv (exCase 1)).score = 0 := by
  decide

/-- C3 witness: the amended statement instantiated at a fail-fail-succeed
oracle, an always-failing work model and an always-failing scoring model. -/
theorem c3_retry_amended_witness :
    safeModelCall exFlaky
      = ⟨true, some "the work answer", some 7, some 1000000, none, 3,
          [retryDelayMs, retryDelayMs]⟩
    ∧ (processCase exWorkFailEnv (exCase 1)).error = some "transient"
    ∧ (processCase exWorkFailEnv (exCase 1)).modelAnswer = PLACEHOLDER_ANSWER
    ∧ (processCase exScoreFailEnv (exCase 1)).score = 0 := by
  have h1 := c3_retry_amended exFlaky "transient" "transient" "score model down"
    ⟨"the work answer", 7, 1000000⟩ exWorkFailEnv (exCase 1) exEnv exCases5
  have h2 := c3_retry_amended exFlaky "transient" "transient" "score model down"
    ⟨"the work answer", 7, 1000000⟩ exScoreFailEnv (exCase 1) exEnv exCases5
  refine ⟨h1.2.1 (by rfl) (by rfl) (by rfl), ?_, ?_, ?_⟩
  · exact (h1.2.2.2.1 (fun i => rfl)).1
  · exact (h1.2.2.2.1 (fun i => rfl)).2
  · exact (h2.2.2.2.2.1 (fun i => rfl) (fun p i => rfl)).2.2
